import Mathlib

/-
Shallow embedding of src/synchronized_value.h: the synchronized_value wrapper
(payload guarded by a mutex plus an atomic LockState and a locker_thread_id)
and the synchronized_scope multi-object locking coordinator.

Modelling conventions:
  * A synchronized_value is identified by its memory address, modelled as Nat.
  * Thread identities are modelled as Nat; the default-constructed
    std::thread::id (the "no owner" sentinel) is modelled as none : Option Nat,
    a real thread t as some t.
  * The payload is kept in a separate map from addresses to Int, since the
    locking machinery never reads it.
  * Sequential semantics: each operation runs with no interference from other
    threads.  An operation that would block (an atomic wait, or a mutex
    acquisition that cannot proceed) and hence cannot complete without another
    thread acting is modelled by an explicit "blocked" outcome.
  * For the concurrency claim, a small-step interleaving model of two threads
    each executing synchronized_scope::lock_all is given (stepT, Sys below);
    each per-participant claim (one compare_exchange_strong plus the
    locker_thread_id check) is one atomic step.
-/

namespace SyncVal

/-- Lock states of a synchronized_value, from the LockState enum in
synchronized_value.h: Unlocked = 0, Operator = 1 (held by an access_proxy,
the spec's HeldBySingleAccess), Scope = 2 (claimed or held by a
synchronized_scope, the spec's HeldByScope). -/
inductive LockState where
  | Unlocked
  | Operator
  | Scope
deriving DecidableEq

/-- State of one synchronized_value: the atomic lock_state, the
locker_thread_id (none models the default std::thread::id) and whether the
internal mutex mtx is currently held. -/
structure SV where
  lockState : LockState
  locker : Option Nat
  mtxHeld : Bool
deriving DecidableEq

/-- A store maps each address to the state of the synchronized_value living
there. -/
abbrev Store := Nat → SV

/-- Pointwise update of a store at one address. -/
def updSV (σ : Store) (a : Nat) (v : SV) : Store :=
  fun b => if b = a then v else σ b

/-- Payload map: the T objects held by the synchronized_values, by address. -/
abbrev PMap := Nat → Int

/-- Outcome of running the access_proxy constructor (lines 93-110 of the
header) to completion or to its first genuine block, on the state of the one
synchronized_value involved.  acquired: the CAS Unlocked -> Operator succeeded
and the unique_lock took the mutex (the proxy owns the lock).  piggyback: the
CAS failed with the observed state Scope and locker_thread_id equal to the
calling thread, so the constructor breaks out without taking the lock.
blocked: the CAS failed and the constructor calls state.wait, which cannot
return without another thread changing the state. -/
inductive AccessCtorResult where
  | acquired (v : SV)
  | piggyback (v : SV)
  | blocked (v : SV)
deriving DecidableEq

/-- The access_proxy constructor.  Note that it never writes locker_thread_id:
the parameter locker_id is only read in the piggyback test. -/
def access_proxy_construct (t : Nat) (v : SV) : AccessCtorResult :=
  if v.lockState = .Unlocked then
    .acquired { v with lockState := .Operator, mtxHeld := true }
  else if v.lockState = .Scope ∧ v.locker = some t then
    .piggyback v
  else
    .blocked v

/-- The access_proxy destructor (lines 86-91): if the proxy's unique_lock owns
the mutex it stores Unlocked into lock_state and notifies, and then the
unique_lock member's own destructor releases the mutex; otherwise it does
nothing.  It never touches locker_thread_id. -/
def access_proxy_destruct (ownsLock : Bool) (v : SV) : SV :=
  if ownsLock then { v with lockState := .Unlocked, mtxHeld := false } else v

/-- Outcome of one per-participant claim attempt inside
synchronized_scope::lock_all (lines 166-186): the compare_exchange_strong from
Unlocked to Scope, and on failure the locker_thread_id test that either throws
the logic error or records the participant as one to wait for. -/
inductive ClaimOutcome where
  | claimed (σ : Store)
  | reentrant
  | mustWait

/-- One claim attempt on participant p by thread t, transcribing the body of
the fold expression in lock_all. -/
def claimOne (t : Nat) (σ : Store) (p : Nat) : ClaimOutcome :=
  if (σ p).lockState = .Unlocked then
    .claimed (updSV σ p { σ p with lockState := .Scope })
  else if (σ p).locker = some t then
    .reentrant
  else
    .mustWait

/-- The claim pass of lock_all over the participant list in argument order,
accumulating the lock_plan (addresses successfully claimed, in claim order)
and locks_to_wait_for (addresses that must be waited for).  error σ models the
thrown std::logic_error, with σ the store at the moment of the throw. -/
def claimPhase (t : Nat) :
    List Nat → Store → List Nat → List Nat →
    Except Store (Store × List Nat × List Nat)
  | [], σ, plan, waits => .ok (σ, plan, waits)
  | p :: ps, σ, plan, waits =>
    match claimOne t σ p with
    | .claimed σ' => claimPhase t ps σ' (plan ++ [p]) waits
    | .reentrant => .error σ
    | .mustWait => claimPhase t ps σ plan (waits ++ [p])

/-- The finalize actions queued in lock_plan (lines 170-176), executed over a
list of addresses in list order: each acquires the underlying mutex and stamps
locker_thread_id with the constructing thread. -/
def finalize_plan (t : Nat) (σ : Store) : List Nat → Store
  | [] => σ
  | p :: ps => finalize_plan t (updSV σ p { σ p with mtxHeld := true, locker := some t }) ps

/-- Overall outcome of synchronized_scope::lock_all under sequential
semantics.  ok σ plan: construction completed, with plan the exact order in
which the finalize actions were executed.  reentrant σ: the std::logic_error
was thrown, leaving store σ.  blocked σ claimed waiting: some participants
had to be waited for, and the constructor blocks in the wait loop with store
σ, still holding the claims listed in claimed. -/
inductive LockAllResult where
  | ok (σ : Store) (plan : List Nat)
  | reentrant (σ : Store)
  | blocked (σ : Store) (claimed : List Nat) (waiting : List Nat)

/-- synchronized_scope::lock_all (lines 159-211) under sequential semantics:
one claim pass in argument order; if any participant must be waited for the
constructor blocks (the code waits without releasing the claims it has made);
otherwise the lock_plan is sorted by address (std::sort with std::less on the
pointers) and the finalize actions run in that sorted order. -/
def lock_all (t : Nat) (parts : List Nat) (σ : Store) : LockAllResult :=
  match claimPhase t parts σ [] [] with
  | .error σ' => .reentrant σ'
  | .ok (σ', plan, waits) =>
    if waits = [] then
      .ok (finalize_plan t σ' (List.insertionSort (· ≤ ·) plan)) (List.insertionSort (· ≤ ·) plan)
    else
      .blocked σ' plan waits

/-- synchronized_scope::unlock_all (lines 213-224): for every participant,
store Unlocked into lock_state, reset locker_thread_id to the default
std::thread::id, unlock the mutex and notify. -/
def unlock_all (σ : Store) : List Nat → Store
  | [] => σ
  | p :: ps => unlock_all (updSV σ p ⟨.Unlocked, none, false⟩) ps

/-- synchronized_value::operator<=> (lines 52-55): construct a
synchronized_scope over (this, other) in that argument order, compare the two
payloads, and destroy the scope (unlock_all).  none models a comparison that
never completes (the scope constructor blocks or throws). -/
def sv_compare (t : Nat) (a b : Nat) (σ : Store) (π : PMap) :
    Option (Ordering × Store) :=
  match lock_all t [a, b] σ with
  | .ok σ' _ => some (compare (π a) (π b), unlock_all σ' [a, b])
  | _ => none

/-- synchronized_value::operator== (lines 57-60), analogously. -/
def sv_eq (t : Nat) (a b : Nat) (σ : Store) (π : PMap) :
    Option (Bool × Store) :=
  match lock_all t [a, b] σ with
  | .ok σ' _ => some (decide (π a = π b), unlock_all σ' [a, b])
  | _ => none

/-- Assignment through an access handle (access_proxy::operator=, lines
116-124, reached via synchronized_value::operator*): construct the proxy,
write the payload, destroy the proxy.  none models a construction that
blocks. -/
def assign_whole (t : Nat) (a : Nat) (σ : Store) (π : PMap) (x : Int) :
    Option (Store × PMap) :=
  match access_proxy_construct t (σ a) with
  | .acquired v => some (updSV σ a (access_proxy_destruct true v), fun b => if b = a then x else π b)
  | .piggyback v => some (updSV σ a (access_proxy_destruct false v), fun b => if b = a then x else π b)
  | .blocked _ => none

/-- Conversion-out through an access handle (access_proxy::operator T, lines
126-128): construct the proxy, copy the payload out, destroy the proxy. -/
def read_whole (t : Nat) (a : Nat) (σ : Store) (π : PMap) :
    Option (Int × Store) :=
  match access_proxy_construct t (σ a) with
  | .acquired v => some (π a, updSV σ a (access_proxy_destruct true v))
  | .piggyback v => some (π a, updSV σ a (access_proxy_destruct false v))
  | .blocked _ => none

/-- Underlying SV state carried by an AccessCtorResult. -/
def ctorState : AccessCtorResult → SV
  | .acquired v => v
  | .piggyback v => v
  | .blocked v => v

/-- The lock-state/mutex invariant of one synchronized_value: lock_state is
Unlocked exactly when the internal mutex is not held. -/
def InvSV (v : SV) : Prop := v.lockState = .Unlocked ↔ v.mtxHeld = false

instance (v : SV) : Decidable (InvSV v) := by unfold InvSV; infer_instance

/-- Thread-local control state of one thread executing lock_all, for the
interleaving model.  claiming rem plan waits: inside the claim pass with rem
the participants not yet attempted; waiting ws: inside the wait loop with ws
the wait list not yet passed; finalizing plan: executing the sorted finalize
actions; finished: lock_all returned; threw: the logic error was thrown. -/
inductive TState where
  | claiming (remaining plan waits : List Nat)
  | waiting (waits : List Nat)
  | finalizing (plan : List Nat)
  | finished
  | threw
deriving DecidableEq

/-- One small step of a thread t executing lock_all over participant list
parts, on shared store σ.  none means the thread cannot step: it is blocked
in an atomic wait on a participant whose lock_state is still Scope, or it has
terminated. -/
def stepT (t : Nat) (parts : List Nat) (σ : Store) : TState → Option (Store × TState)
  | .claiming [] plan waits =>
    if waits = [] then some (σ, .finalizing (List.insertionSort (· ≤ ·) plan))
    else some (σ, .waiting waits)
  | .claiming (p :: ps) plan waits =>
    match claimOne t σ p with
    | .claimed σ' => some (σ', .claiming ps (plan ++ [p]) waits)
    | .reentrant => some (σ, .threw)
    | .mustWait => some (σ, .claiming ps plan (waits ++ [p]))
  | .waiting [] => some (σ, .claiming parts [] [])
  | .waiting (w :: ws) =>
    if (σ w).lockState = .Scope then none
    else some (σ, .waiting ws)
  | .finalizing [] => some (σ, .finished)
  | .finalizing (p :: ps) =>
    some (updSV σ p { σ p with mtxHeld := true, locker := some t }, .finalizing ps)
  | .finished => none
  | .threw => none

/-- Global state of the two-thread system of the deadlock-freedom test:
thread 1 constructs a scope over addresses [0, 1], thread 2 concurrently
constructs a scope over [1, 0]. -/
structure Sys where
  store : Store
  st1 : TState
  st2 : TState

/-- Thread 1 takes one step (participants [0, 1]). -/
def step1 (S : Sys) : Option Sys :=
  match stepT 1 [0, 1] S.store S.st1 with
  | some (σ', ts) => some ⟨σ', ts, S.st2⟩
  | none => none

/-- Thread 2 takes one step (participants [1, 0]). -/
def step2 (S : Sys) : Option Sys :=
  match stepT 2 [1, 0] S.store S.st2 with
  | some (σ', ts) => some ⟨σ', S.st1, ts⟩
  | none => none

/-- One interleaving step: either thread moves. -/
def SysStep (S S' : Sys) : Prop := step1 S = some S' ∨ step2 S = some S'

/-- Reachability in the interleaving semantics. -/
def Reaches : Sys → Sys → Prop := Relation.ReflTransGen SysStep

/-- All synchronized_values unlocked, no stale owner, mutexes free. -/
def σ₀ : Store := fun _ => ⟨.Unlocked, none, false⟩

/-- Store after thread 1 claimed address 0. -/
def σa : Store := updSV σ₀ 0 ⟨.Scope, none, false⟩

/-- Store after thread 1 claimed address 0 and thread 2 claimed address 1. -/
def σab : Store := updSV σa 1 ⟨.Scope, none, false⟩

/-- Initial system: both threads about to start their claim passes. -/
def S0 : Sys := ⟨σ₀, .claiming [0, 1] [] [], .claiming [1, 0] [] []⟩

def S1 : Sys := ⟨σa, .claiming [1] [0] [], .claiming [1, 0] [] []⟩

def S2 : Sys := ⟨σab, .claiming [1] [0] [], .claiming [0] [1] []⟩

def S3 : Sys := ⟨σab, .claiming [] [0] [1], .claiming [0] [1] []⟩

def S4 : Sys := ⟨σab, .claiming [] [0] [1], .claiming [] [1] [0]⟩

def S5 : Sys := ⟨σab, .waiting [1], .claiming [] [1] [0]⟩

/-- The deadlock state: thread 1 blocked waiting on address 1 (claimed by
thread 2), thread 2 blocked waiting on address 0 (claimed by thread 1),
neither having released its own claim. -/
def S6 : Sys := ⟨σab, .waiting [1], .waiting [0]⟩

/-- Store with address 1 scope-held by thread 2, everything else free. -/
def σB : Store := fun n => if n = 1 then ⟨.Scope, some 2, true⟩ else ⟨.Unlocked, none, false⟩

/-- σB after thread 1 claimed address 0. -/
def σB1 : Store := updSV σB 0 ⟨.Scope, none, false⟩

/-- Store with address 1 scope-held by thread 1 through a prior
synchronized_scope whose participant set is just the singleton at address 1;
everything else free. -/
def σC : Store := fun n => if n = 1 then ⟨.Scope, some 1, true⟩ else ⟨.Unlocked, none, false⟩

/-- σC after thread 1 claimed address 0. -/
def σC1 : Store := updSV σC 0 ⟨.Scope, none, false⟩

/-- σ₀ after thread 1 claimed address 5. -/
def σD5 : Store := updSV σ₀ 5 ⟨.Scope, none, false⟩

/-- Store after the claim pass of a scope over [20, 10] on σ₀. -/
def σ6c : Store := updSV (updSV σ₀ 20 ⟨.Scope, none, false⟩) 10 ⟨.Scope, none, false⟩

/-- Store after that scope's finalize pass, which runs in sorted order. -/
def σ6f : Store := finalize_plan 1 σ6c [10, 20]

/-- A concrete payload map: the value at address n is n itself. -/
def π01 : PMap := fun n => (n : Int)

/-- Store after assigning through a fresh access handle at address 0 of σ₀:
the handle acquires, the payload is written, the handle is destroyed. -/
def σW : Store := updSV σ₀ 0 (access_proxy_destruct true ⟨.Operator, none, true⟩)

/-- Payload map after assigning 7 through that handle at address 0. -/
def πW : PMap := fun b => if b = 0 then 7 else π01 b

/-! Helper lemmas about the embedded operations. -/

theorem updSV_self (σ : Store) (a : Nat) (v : SV) : updSV σ a v a = v := by
  simp [updSV]

theorem updSV_ne (σ : Store) (a b : Nat) (v : SV) (h : b ≠ a) : updSV σ a v b = σ b := by
  simp [updSV, h]

theorem unlock_frame :
    ∀ (parts : List Nat) (σ : Store) (q : Nat), q ∉ parts → unlock_all σ parts q = σ q := by
  intro parts
  induction parts with
  | nil => intro σ q _; rfl
  | cons p ps ih =>
    intro σ q hq
    have hqp : q ≠ p := fun h => hq (h ▸ List.mem_cons_self p ps)
    have hqs : q ∉ ps := fun h => hq (List.mem_cons_of_mem p h)
    calc unlock_all (updSV σ p ⟨.Unlocked, none, false⟩) ps q
        = updSV σ p ⟨.Unlocked, none, false⟩ q := ih _ q hqs
      _ = σ q := updSV_ne _ _ _ _ hqp

theorem unlock_mem :
    ∀ (parts : List Nat) (σ : Store) (p : Nat), p ∈ parts →
      unlock_all σ parts p = ⟨.Unlocked, none, false⟩ := by
  intro parts
  induction parts with
  | nil => intro σ p h; cases h
  | cons a ps ih =>
    intro σ p hp
    by_cases hps : p ∈ ps
    · exact ih _ p hps
    · have hpa : p = a := by
        rcases List.mem_cons.mp hp with h | h
        · exact h
        · exact absurd h hps
      subst hpa
      calc unlock_all (updSV σ p ⟨.Unlocked, none, false⟩) ps p
          = updSV σ p ⟨.Unlocked, none, false⟩ p := unlock_frame ps _ p hps
        _ = ⟨.Unlocked, none, false⟩ := updSV_self _ _ _

theorem claimOne_claimed (t : Nat) (σ : Store) (p : Nat) (σ' : Store)
    (h : claimOne t σ p = .claimed σ') :
    (σ p).lockState = .Unlocked ∧ σ' = updSV σ p { σ p with lockState := .Scope } := by
  unfold claimOne at h
  split at h
  · refine ⟨by assumption, ?_⟩
    injection h with h'
    exact h'.symm
  · split at h <;> exact absurd h (by simp)

theorem claimPhase_acc_grows (t : Nat) :
    ∀ (rem : List Nat) (σ : Store) (acc ws : List Nat) (σc : Store) (raw w : List Nat),
    claimPhase t rem σ acc ws = .ok (σc, raw, w) → ∃ rest, raw = acc ++ rest := by
  intro rem
  induction rem with
  | nil =>
    intro σ acc ws σc raw w h
    simp only [claimPhase, Except.ok.injEq, Prod.mk.injEq] at h
    exact ⟨[], by simp [h.2.1.symm]⟩
  | cons p ps ih =>
    intro σ acc ws σc raw w h
    simp only [claimPhase] at h
    split at h
    · obtain ⟨rest, hrest⟩ := ih _ _ _ _ _ _ h
      exact ⟨p :: rest, by simp [hrest]⟩
    · exact absurd h (by simp)
    · exact ih _ _ _ _ _ _ h

theorem claimPhase_unchanged (t : Nat) :
    ∀ (rem : List Nat) (σ : Store) (acc ws : List Nat) (σc : Store) (raw w : List Nat),
    claimPhase t rem σ acc ws = .ok (σc, raw, w) → ∀ q, q ∉ raw → σc q = σ q := by
  intro rem
  induction rem with
  | nil =>
    intro σ acc ws σc raw w h q _
    simp only [claimPhase, Except.ok.injEq, Prod.mk.injEq] at h
    rw [← h.1]
  | cons p ps ih =>
    intro σ acc ws σc raw w h q hq
    simp only [claimPhase] at h
    split at h
    · rename_i σ' heq
      obtain ⟨hU, hσ'⟩ := claimOne_claimed t σ p σ' heq
      obtain ⟨rest, hrest⟩ := claimPhase_acc_grows t ps σ' (acc ++ [p]) ws σc raw w h
      have hpraw : p ∈ raw := by
        rw [hrest]; exact List.mem_append_left _ (List.mem_append_right _ (List.mem_singleton.mpr rfl))
      have hqp : q ≠ p := fun hqp' => hq (hqp' ▸ hpraw)
      calc σc q = σ' q := ih _ _ _ _ _ _ h q hq
        _ = σ q := by rw [hσ']; exact updSV_ne _ _ _ _ hqp
    · exact absurd h (by simp)
    · exact ih _ _ _ _ _ _ h q hq

theorem claimPhase_raw_sub (t : Nat) :
    ∀ (rem : List Nat) (σ : Store) (acc ws : List Nat) (σc : Store) (raw w : List Nat),
    claimPhase t rem σ acc ws = .ok (σc, raw, w) → ∀ x ∈ raw, x ∈ acc ∨ x ∈ rem := by
  intro rem
  induction rem with
  | nil =>
    intro σ acc ws σc raw w h x hx
    simp only [claimPhase, Except.ok.injEq, Prod.mk.injEq] at h
    exact Or.inl (h.2.1 ▸ hx)
  | cons p ps ih =>
    intro σ acc ws σc raw w h x hx
    simp only [claimPhase] at h
    split at h
    · rcases ih _ _ _ _ _ _ h x hx with hacc | hps
      · rcases List.mem_append.mp hacc with h1 | h2
        · exact Or.inl h1
        · exact Or.inr (List.mem_cons.mpr (Or.inl (List.mem_singleton.mp h2)))
      · exact Or.inr (List.mem_cons_of_mem p hps)
    · exact absurd h (by simp)
    · rcases ih _ _ _ _ _ _ h x hx with hacc | hps
      · exact Or.inl hacc
      · exact Or.inr (List.mem_cons_of_mem p hps)

theorem claimPhase_scope (t : Nat) :
    ∀ (rem : List Nat) (σ : Store) (acc ws : List Nat) (σc : Store) (raw w : List Nat),
    (∀ q ∈ acc, (σ q).lockState = .Scope) →
    claimPhase t rem σ acc ws = .ok (σc, raw, w) → ∀ q ∈ raw, (σc q).lockState = .Scope := by
  intro rem
  induction rem with
  | nil =>
    intro σ acc ws σc raw w hacc h q hq
    simp only [claimPhase, Except.ok.injEq, Prod.mk.injEq] at h
    rw [← h.1]
    exact hacc q (h.2.1 ▸ hq)
  | cons p ps ih =>
    intro σ acc ws σc raw w hacc h q hq
    simp only [claimPhase] at h
    split at h
    · rename_i σ' heq
      obtain ⟨hU, hσ'⟩ := claimOne_claimed t σ p σ' heq
      refine ih _ _ _ _ _ _ ?_ h q hq
      intro r hr
      by_cases hrp : r = p
      · subst hrp
        rw [hσ', updSV_self]
      · rw [hσ', updSV_ne _ _ _ _ hrp]
        rcases List.mem_append.mp hr with h1 | h2
        · exact hacc r h1
        · exact absurd (List.mem_singleton.mp h2) hrp
    · exact absurd h (by simp)
    · exact ih _ _ _ _ _ _ hacc h q hq

theorem finalize_frame (t : Nat) :
    ∀ (plan : List Nat) (σ : Store) (q : Nat), q ∉ plan → finalize_plan t σ plan q = σ q := by
  intro plan
  induction plan with
  | nil => intro σ q _; rfl
  | cons p ps ih =>
    intro σ q hq
    have hqp : q ≠ p := fun h => hq (h ▸ List.mem_cons_self p ps)
    have hqs : q ∉ ps := fun h => hq (List.mem_cons_of_mem p h)
    calc finalize_plan t (updSV σ p { σ p with mtxHeld := true, locker := some t }) ps q
        = updSV σ p { σ p with mtxHeld := true, locker := some t } q := ih _ q hqs
      _ = σ q := updSV_ne _ _ _ _ hqp

theorem finalize_lockState (t : Nat) :
    ∀ (plan : List Nat) (σ : Store) (q : Nat),
      (finalize_plan t σ plan q).lockState = (σ q).lockState := by
  intro plan
  induction plan with
  | nil => intro σ q; rfl
  | cons p ps ih =>
    intro σ q
    rw [show finalize_plan t σ (p :: ps) = finalize_plan t (updSV σ p { σ p with mtxHeld := true, locker := some t }) ps from rfl]
    rw [ih]
    by_cases hqp : q = p
    · subst hqp
      rw [updSV_self]
    · rw [updSV_ne _ _ _ _ hqp]

theorem finalize_mem (t : Nat) :
    ∀ (plan : List Nat) (σ : Store) (q : Nat), q ∈ plan →
      (finalize_plan t σ plan q).mtxHeld = true ∧ (finalize_plan t σ plan q).locker = some t := by
  intro plan
  induction plan with
  | nil => intro σ q h; cases h
  | cons p ps ih =>
    intro σ q hq
    by_cases hqs : q ∈ ps
    · exact ih _ q hqs
    · have hqp : q = p := by
        rcases List.mem_cons.mp hq with h | h
        · exact h
        · exact absurd h hqs
      subst hqp
      rw [show finalize_plan t σ (q :: ps) = finalize_plan t (updSV σ q { σ q with mtxHeld := true, locker := some t }) ps from rfl]
      rw [finalize_frame t ps _ q hqs, updSV_self]
      exact ⟨rfl, rfl⟩

theorem access_ctor_acquired (t : Nat) (w v : SV)
    (h : access_proxy_construct t w = .acquired v) :
    v = { w with lockState := .Operator, mtxHeld := true } := by
  unfold access_proxy_construct at h
  split_ifs at h
  injection h with h'
  exact h'.symm

theorem access_ctor_piggyback (t : Nat) (w v : SV)
    (h : access_proxy_construct t w = .piggyback v) : v = w := by
  unfold access_proxy_construct at h
  split_ifs at h
  injection h with h'
  exact h'.symm

theorem claimPhase_ws_grows (t : Nat) :
    ∀ (rem : List Nat) (σ : Store) (acc ws : List Nat) (σc : Store) (raw w : List Nat),
    claimPhase t rem σ acc ws = .ok (σc, raw, w) → ∃ rest, w = ws ++ rest := by
  intro rem
  induction rem with
  | nil =>
    intro σ acc ws σc raw w h
    simp only [claimPhase, Except.ok.injEq, Prod.mk.injEq] at h
    exact ⟨[], by simp [h.2.2.symm]⟩
  | cons p ps ih =>
    intro σ acc ws σc raw w h
    simp only [claimPhase] at h
    split at h
    · exact ih _ _ _ _ _ _ h
    · exact absurd h (by simp)
    · obtain ⟨rest, hrest⟩ := ih _ _ _ _ _ _ h
      exact ⟨p :: rest, by simp [hrest]⟩

theorem claimPhase_covered (t : Nat) :
    ∀ (rem : List Nat) (σ : Store) (acc ws : List Nat) (σc : Store) (raw w : List Nat),
    claimPhase t rem σ acc ws = .ok (σc, raw, w) → ∀ x ∈ rem, x ∈ raw ∨ x ∈ w := by
  intro rem
  induction rem with
  | nil =>
    intro σ acc ws σc raw w h x hx
    cases hx
  | cons p ps ih =>
    intro σ acc ws σc raw w h x hx
    simp only [claimPhase] at h
    split at h
    · rcases List.mem_cons.mp hx with hxp | hxs
      · subst hxp
        obtain ⟨rest, hrest⟩ := claimPhase_acc_grows t ps _ (acc ++ [x]) ws σc raw w h
        exact Or.inl (by rw [hrest]; simp)
      · exact ih _ _ _ _ _ _ h x hxs
    · exact absurd h (by simp)
    · rcases List.mem_cons.mp hx with hxp | hxs
      · subst hxp
        obtain ⟨rest, hrest⟩ := claimPhase_ws_grows t ps _ acc (ws ++ [x]) σc raw w h
        exact Or.inr (by rw [hrest]; simp)
      · exact ih _ _ _ _ _ _ h x hxs

theorem lock_all_ok_elim (t : Nat) (parts : List Nat) (σ σ' : Store) (plan : List Nat)
    (h : lock_all t parts σ = .ok σ' plan) :
    ∃ σc raw, claimPhase t parts σ [] [] = .ok (σc, raw, []) ∧
      plan = List.insertionSort (· ≤ ·) raw ∧
      σ' = finalize_plan t σc plan := by
  unfold lock_all at h
  split at h
  · exact absurd h (by simp)
  · rename_i σc raw waits heq
    split at h
    · rename_i hw
      subst hw
      injection h with h1 h2
      exact ⟨σc, raw, heq, h2.symm, by rw [← h1, h2]⟩
    · exact absurd h (by simp)

theorem inv_unlock_all (σ : Store) (parts : List Nat) (hσ : ∀ n, InvSV (σ n)) :
    ∀ n, InvSV (unlock_all σ parts n) := by
  intro n
  by_cases hn : n ∈ parts
  · rw [unlock_mem parts σ n hn]
    simp [InvSV]
  · rw [unlock_frame parts σ n hn]
    exact hσ n

theorem inv_lock_all_ok (t : Nat) (parts : List Nat) (σ σ' : Store) (plan : List Nat)
    (hσ : ∀ n, InvSV (σ n)) (h : lock_all t parts σ = .ok σ' plan) :
    ∀ n, InvSV (σ' n) := by
  obtain ⟨σc, raw, heq, hplan, hσ'⟩ := lock_all_ok_elim t parts σ σ' plan h
  intro n
  by_cases hn : n ∈ plan
  · have hnraw : n ∈ raw := by
      have := (List.perm_insertionSort (· ≤ ·) raw).mem_iff (a := n)
      rw [hplan] at hn
      exact this.mp hn
    have hlock : (σ' n).lockState = .Scope := by
      rw [hσ', finalize_lockState]
      exact claimPhase_scope t parts σ [] [] σc raw [] (by intro q hq; cases hq) heq n hnraw
    have hmtx : (σ' n).mtxHeld = true := by
      rw [hσ']
      exact (finalize_mem t plan σc n hn).1
    simp [InvSV, hlock, hmtx]
  · have hnraw : n ∉ raw := by
      intro hr
      exact hn (hplan ▸ ((List.perm_insertionSort (· ≤ ·) raw).mem_iff (a := n)).mpr hr)
    have : σ' n = σ n := by
      rw [hσ', finalize_frame t plan σc n hn]
      exact claimPhase_unchanged t parts σ [] [] σc raw [] heq n hnraw
    rw [this]
    exact hσ n

theorem lock_all_ok_holds (t : Nat) (parts : List Nat) (σ σ' : Store) (plan : List Nat)
    (h : lock_all t parts σ = .ok σ' plan) :
    ∀ p ∈ parts, (σ' p).lockState = .Scope ∧ (σ' p).mtxHeld = true ∧ (σ' p).locker = some t := by
  obtain ⟨σc, raw, heq, hplan, hσ'⟩ := lock_all_ok_elim t parts σ σ' plan h
  intro p hp
  have hpraw : p ∈ raw := by
    rcases claimPhase_covered t parts σ [] [] σc raw [] heq p hp with h1 | h2
    · exact h1
    · cases h2
  have hpplan : p ∈ plan := by
    rw [hplan]
    exact ((List.perm_insertionSort (· ≤ ·) raw).mem_iff).mpr hpraw
  subst hσ'
  refine ⟨?_, (finalize_mem t plan σc p hpplan).1, (finalize_mem t plan σc p hpplan).2⟩
  rw [finalize_lockState]
  exact claimPhase_scope t parts σ [] [] σc raw [] (by intro q hq; cases hq) heq p hpraw

theorem inv_assign_whole (t a : Nat) (σ : Store) (π : PMap) (x : Int) (σ₁ : Store) (π₁ : PMap)
    (hσ : ∀ n, InvSV (σ n)) (h : assign_whole t a σ π x = some (σ₁, π₁)) :
    ∀ n, InvSV (σ₁ n) := by
  unfold assign_whole at h
  split at h
  · simp only [Option.some.injEq, Prod.mk.injEq] at h
    rw [← h.1]
    intro n
    by_cases hna : n = a
    · subst hna
      rw [updSV_self]
      simp [access_proxy_destruct, InvSV]
    · rw [updSV_ne _ _ _ _ hna]
      exact hσ n
  · rename_i v heq
    simp only [Option.some.injEq, Prod.mk.injEq] at h
    rw [← h.1]
    intro n
    by_cases hna : n = a
    · subst hna
      rw [updSV_self]
      have hv := access_ctor_piggyback t (σ n) v heq
      simp only [access_proxy_destruct, Bool.false_eq_true, if_false]
      rw [hv]
      exact hσ n
    · rw [updSV_ne _ _ _ _ hna]
      exact hσ n
  · exact absurd h (by simp)

theorem inv_read_whole (t a : Nat) (σ : Store) (π : PMap) (r : Int) (σ₁ : Store)
    (hσ : ∀ n, InvSV (σ n)) (h : read_whole t a σ π = some (r, σ₁)) :
    ∀ n, InvSV (σ₁ n) := by
  unfold read_whole at h
  split at h
  · simp only [Option.some.injEq, Prod.mk.injEq] at h
    rw [← h.2]
    intro n
    by_cases hna : n = a
    · subst hna
      rw [updSV_self]
      simp [access_proxy_destruct, InvSV]
    · rw [updSV_ne _ _ _ _ hna]
      exact hσ n
  · rename_i v heq
    simp only [Option.some.injEq, Prod.mk.injEq] at h
    rw [← h.2]
    intro n
    by_cases hna : n = a
    · subst hna
      rw [updSV_self]
      have hv := access_ctor_piggyback t (σ n) v heq
      simp only [access_proxy_destruct, Bool.false_eq_true, if_false]
      rw [hv]
      exact hσ n
    · rw [updSV_ne _ _ _ _ hna]
      exact hσ n
  · exact absurd h (by simp)

theorem lock_all_pair_ok (t a b : Nat) (σ : Store) (hab : a ≠ b)
    (ha : (σ a).lockState = .Unlocked) (hb : (σ b).lockState = .Unlocked) :
    lock_all t [a, b] σ =
      .ok (finalize_plan t
            (updSV (updSV σ a { σ a with lockState := .Scope }) b
              { updSV σ a { σ a with lockState := .Scope } b with lockState := .Scope })
            (List.insertionSort (· ≤ ·) [a, b]))
        (List.insertionSort (· ≤ ·) [a, b]) := by
  have h1 : claimOne t σ a = .claimed (updSV σ a { σ a with lockState := .Scope }) := by
    unfold claimOne
    simp [ha]
  have hb' : (updSV σ a { σ a with lockState := .Scope } b).lockState = .Unlocked := by
    rw [updSV_ne _ _ _ _ (Ne.symm hab)]
    exact hb
  have h2 : claimOne t (updSV σ a { σ a with lockState := .Scope }) b =
      .claimed (updSV (updSV σ a { σ a with lockState := .Scope }) b
        { updSV σ a { σ a with lockState := .Scope } b with lockState := .Scope }) := by
    unfold claimOne
    simp [hb']
  unfold lock_all claimPhase
  rw [h1]
  unfold claimPhase
  rw [h2]
  unfold claimPhase
  simp

/-! Claim theorems. -/

/-- C1 (code bug): the claim states that a thread building a scope over
addresses 0, 1 and a concurrent thread building a scope over 1, 0 both
eventually complete without deadlock, regardless of interleaving.  The code
violates this: from the all-unlocked initial system S0 the interleaving
(thread 1 claims 0, thread 2 claims 1, each fails its second claim, each
enters the wait loop) reaches state S6, in which neither thread can take any
step (each is blocked in an atomic wait on a participant the other holds in
the Scope state, still holding its own claim) and neither has finished, so
neither construction ever completes. -/
theorem C1_deadlock_reachable :
    Reaches S0 S6 ∧ step1 S6 = none ∧ step2 S6 = none ∧
    S6.st1 ≠ .finished ∧ S6.st2 ≠ .finished := by
  refine ⟨?_, rfl, rfl, by decide, by decide⟩
  have h01 : SysStep S0 S1 := Or.inl rfl
  have h12 : SysStep S1 S2 := Or.inr rfl
  have h23 : SysStep S2 S3 := Or.inl rfl
  have h34 : SysStep S3 S4 := Or.inr rfl
  have h45 : SysStep S4 S5 := Or.inl rfl
  have h56 : SysStep S5 S6 := Or.inr rfl
  exact Relation.ReflTransGen.tail (Relation.ReflTransGen.tail (Relation.ReflTransGen.tail
    (Relation.ReflTransGen.tail (Relation.ReflTransGen.tail
      (Relation.ReflTransGen.single h01) h12) h23) h34) h45) h56

/-- C2 (code bug): the claim states that whenever at least one participant
must be waited on, lock_all first releases every claim already made in the
attempt and never blocks while still holding such a claim.  The code
violates this: with address 1 scope-held by thread 2, a scope over addresses
0, 1 on thread 1 claims address 0 (Unlocked to Scope) and then blocks on
address 1 with the claim on address 0 still in the Scope state. -/
theorem C2_blocks_holding_claim :
    lock_all 1 [0, 1] σB = .blocked σB1 [0] [1] ∧
    (σB 0).lockState = .Unlocked ∧ (σB1 0).lockState = .Scope :=
  ⟨rfl, rfl, rfl⟩

/-- C3 counterexample: thread 1 holds address 1 through a prior scope whose
participant set is the singleton at address 1 (lock state Scope, owner thread
1); constructing a scope over the different participant set 0, 1 on the same
thread does raise the error synchronously, but it does not leave the lock
state of every participant unchanged: participant 0, claimed before the
conflict was found, goes from Unlocked to Scope and is never rolled back,
refuting the claim as stated. -/
theorem C3_counterexample :
    lock_all 1 [0, 1] σC = .reentrant σC1 ∧
    (σC 1).locker = some 1 ∧ (σC 1).lockState = .Scope ∧
    (σC 0).lockState = .Unlocked ∧ (σC1 0).lockState = .Scope :=
  ⟨rfl, rfl, rfl, rfl, rfl⟩

/-- C3 amended: constructing a scope over a participant list containing a
value already scope-held by the calling thread raises the error synchronously
at construction time (it does not deadlock and does not proceed), but claims
already made during the failed attempt are not rolled back: a participant
claimed before the conflicting one is left in the Scope lock state. -/
theorem C3_amended (t a b : Nat) (σ : Store) (hab : a ≠ b)
    (ha : (σ a).lockState = .Unlocked)
    (hbS : (σ b).lockState ≠ .Unlocked) (hbt : (σ b).locker = some t) :
    lock_all t [a, b] σ = .reentrant (updSV σ a { σ a with lockState := .Scope }) ∧
    ((updSV σ a { σ a with lockState := .Scope }) a).lockState = .Scope := by
  constructor
  · have h1 : claimOne t σ a = .claimed (updSV σ a { σ a with lockState := .Scope }) := by
      unfold claimOne
      simp [ha]
    have hb' : updSV σ a { σ a with lockState := .Scope } b = σ b :=
      updSV_ne _ _ _ _ (Ne.symm hab)
    have h2 : claimOne t (updSV σ a { σ a with lockState := .Scope }) b = .reentrant := by
      unfold claimOne
      rw [hb']
      simp [hbS, hbt]
    unfold lock_all claimPhase
    rw [h1]
    unfold claimPhase
    rw [h2]
  · rw [updSV_self]

/-- Witness for the amended C3 at a concrete input. -/
theorem C3_amended_witness :
    lock_all 1 [0, 1] σC = .reentrant (updSV σC 0 { σC 0 with lockState := .Scope }) ∧
    ((updSV σC 0 { σC 0 with lockState := .Scope }) 0).lockState = .Scope :=
  C3_amended 1 0 1 σC (by decide) rfl (by decide) rfl

/-- C4 counterexample: on an Unlocked value, the access_proxy constructor
acquires the lock but leaves locker_thread_id unchanged (none, not the
calling thread 1), refuting the claim that acquisition records the calling
thread as owner; and on a value in the Operator state, even with
locker_thread_id equal to the calling thread, the constructor blocks (its
piggyback test requires the Scope state), refuting the claim that it does not
block in that case. -/
theorem C4_counterexample :
    access_proxy_construct 1 ⟨.Unlocked, none, false⟩ = .acquired ⟨.Operator, none, true⟩ ∧
    (⟨.Operator, none, true⟩ : SV).locker ≠ some 1 ∧
    access_proxy_construct 1 ⟨.Operator, some 1, true⟩ = .blocked ⟨.Operator, some 1, true⟩ := by
  decide

/-- C4 amended: the access_proxy constructor acquires the lock (transitioning
Unlocked to Operator, taking the mutex, leaving locker_thread_id unchanged)
exactly when the state is Unlocked; it piggybacks without blocking or
re-acquiring exactly when the state is Scope with locker_thread_id equal to
the calling thread; in every other case (Operator held by anyone, including
the calling thread itself, or Scope held by another thread) it blocks. -/
theorem C4_amended (t : Nat) (v : SV) :
    (v.lockState = .Unlocked →
      access_proxy_construct t v = .acquired { v with lockState := .Operator, mtxHeld := true }) ∧
    (v.lockState = .Scope → v.locker = some t → access_proxy_construct t v = .piggyback v) ∧
    (v.lockState = .Scope → v.locker ≠ some t → access_proxy_construct t v = .blocked v) ∧
    (v.lockState = .Operator → access_proxy_construct t v = .blocked v) := by
  refine ⟨?_, ?_, ?_, ?_⟩
  · intro h
    simp [access_proxy_construct, h]
  · intro h1 h2
    simp [access_proxy_construct, h1, h2]
  · intro h1 h2
    simp [access_proxy_construct, h1, h2]
  · intro h
    simp [access_proxy_construct, h]

/-- Witness for the amended C4 at concrete inputs. -/
theorem C4_amended_witness :
    access_proxy_construct 1 ⟨.Scope, some 1, true⟩ = .piggyback ⟨.Scope, some 1, true⟩ :=
  (C4_amended 1 ⟨.Scope, some 1, true⟩).2.1 rfl rfl

/-- C5 counterexample: a participant appearing twice in the argument list is
not deduplicated: the second occurrence fails its claim and becomes a wait
target, so the construction blocks instead of locking it exactly once; and a
participant already held by the calling thread (address 1 in σC, scope-held
by thread 1) is not excluded from the acquisition set without error: the
construction throws the logic error instead. -/
theorem C5_counterexample :
    lock_all 1 [5, 5] σ₀ = .blocked σD5 [5] [5] ∧
    lock_all 1 [1] σC = .reentrant σC ∧
    (σC 1).locker = some 1 :=
  ⟨rfl, rfl, rfl⟩

/-- C5 amended: lock_all performs no deduplication and no exclusion: every
argument occurrence is claimed independently; a duplicated participant leaves
its second occurrence as a wait target so the construction blocks, and a
participant already scope-held by the calling thread raises the logic error
rather than being excluded and left untouched. -/
theorem C5_amended (t a : Nat) (σ : Store)
    (ha : (σ a).lockState = .Unlocked) (hl : (σ a).locker ≠ some t) :
    lock_all t [a, a] σ = .blocked (updSV σ a { σ a with lockState := .Scope }) [a] [a] ∧
    (∀ b, (σ b).lockState ≠ .Unlocked → (σ b).locker = some t →
      lock_all t [b] σ = .reentrant σ) := by
  constructor
  · have h1 : claimOne t σ a = .claimed (updSV σ a { σ a with lockState := .Scope }) := by
      unfold claimOne
      simp [ha]
    have h2 : claimOne t (updSV σ a { σ a with lockState := .Scope }) a = .mustWait := by
      unfold claimOne
      rw [updSV_self]
      simp [hl]
    unfold lock_all claimPhase
    rw [h1]
    unfold claimPhase
    rw [h2]
    unfold claimPhase
    simp
  · intro b hbS hbt
    have h1 : claimOne t σ b = .reentrant := by
      unfold claimOne
      simp [hbS, hbt]
    unfold lock_all claimPhase
    rw [h1]

/-- Witness for the amended C5 at concrete inputs. -/
theorem C5_amended_witness :
    lock_all 1 [5, 5] σ₀ = .blocked (updSV σ₀ 5 { σ₀ 5 with lockState := .Scope }) [5] [5] ∧
    lock_all 1 [1] σC = .reentrant σC :=
  ⟨(C5_amended 1 5 σ₀ rfl (by decide)).1,
   (C5_amended 1 0 σC rfl (by decide)).2 1 (by decide) rfl⟩

/-- C6 (confirmed): whenever lock_all completes, the finalize actions
(acquire the mutex and stamp locker_thread_id) are executed over the plan in
ascending address order: the executed plan is sorted by the participants'
addresses and is a permutation of the claim-order plan built in argument
order, and the resulting store is exactly the finalize pass run in that
sorted order, never in call-site order. -/
theorem C6_finalize_sorted (t : Nat) (parts : List Nat) (σ σ' : Store) (plan : List Nat)
    (h : lock_all t parts σ = .ok σ' plan) :
    plan.Sorted (· ≤ ·) ∧
    ∃ σc raw, claimPhase t parts σ [] [] = .ok (σc, raw, []) ∧
      plan.Perm raw ∧ σ' = finalize_plan t σc plan := by
  obtain ⟨σc, raw, heq, hplan, hσ'⟩ := lock_all_ok_elim t parts σ σ' plan h
  refine ⟨?_, σc, raw, heq, ?_, hσ'⟩
  · rw [hplan]
    exact List.sorted_insertionSort (· ≤ ·) raw
  · rw [hplan]
    exact List.perm_insertionSort (· ≤ ·) raw

/-- Witness for C6: a scope over addresses 20, 10 in that call-site order
executes its finalize actions in the sorted order 10, 20. -/
theorem C6_witness :
    ([10, 20] : List Nat).Sorted (· ≤ ·) ∧
    ∃ σc raw, claimPhase 1 [20, 10] σ₀ [] [] = .ok (σc, raw, []) ∧
      ([10, 20] : List Nat).Perm raw ∧ σ6f = finalize_plan 1 σc [10, 20] :=
  C6_finalize_sorted 1 [20, 10] σ₀ σ6f [10, 20] rfl

/-- C7 (confirmed): for two distinct synchronized_values whose locks are
free, comparison through the wrapper (operator spaceship and operator
equality, hence also a greater than b) completes and returns exactly the
comparison of the payload snapshots, and afterwards both values are back in
the Unlocked state. -/
theorem C7_compare_unlocks (t a b : Nat) (σ : Store) (π : PMap) (hab : a ≠ b)
    (ha : (σ a).lockState = .Unlocked) (hb : (σ b).lockState = .Unlocked) :
    (∃ σ₁, sv_compare t a b σ π = some (compare (π a) (π b), σ₁) ∧
      (σ₁ a).lockState = .Unlocked ∧ (σ₁ b).lockState = .Unlocked) ∧
    (∃ σ₂, sv_eq t a b σ π = some (decide (π a = π b), σ₂) ∧
      (σ₂ a).lockState = .Unlocked ∧ (σ₂ b).lockState = .Unlocked) := by
  obtain ⟨σf, plan2, hok⟩ : ∃ σf plan2, lock_all t [a, b] σ = .ok σf plan2 :=
    ⟨_, _, lock_all_pair_ok t a b σ hab ha hb⟩
  constructor
  · refine ⟨unlock_all σf [a, b], ?_, ?_, ?_⟩
    · unfold sv_compare
      rw [hok]
    · rw [unlock_mem _ _ a (by simp)]
    · rw [unlock_mem _ _ b (by simp)]
  · refine ⟨unlock_all σf [a, b], ?_, ?_, ?_⟩
    · unfold sv_eq
      rw [hok]
    · rw [unlock_mem _ _ a (by simp)]
    · rw [unlock_mem _ _ b (by simp)]

/-- Witness for C7 at a concrete input: two fresh values at addresses 0 and 1
with payloads 0 and 1. -/
theorem C7_witness :
    (∃ σ₁, sv_compare 1 0 1 σ₀ π01 = some (compare (π01 0) (π01 1), σ₁) ∧
      (σ₁ 0).lockState = .Unlocked ∧ (σ₁ 1).lockState = .Unlocked) ∧
    (∃ σ₂, sv_eq 1 0 1 σ₀ π01 = some (decide (π01 0 = π01 1), σ₂) ∧
      (σ₂ 0).lockState = .Unlocked ∧ (σ₂ 1).lockState = .Unlocked) :=
  C7_compare_unlocks 1 0 1 σ₀ π01 (by decide) rfl rfl

/-- C8 (confirmed): destruction releases exactly what was acquired.  A
piggybacked access_proxy (one that did not itself take the lock) releases
nothing; an owning access_proxy resets the state to Unlocked and frees the
mutex; unlock_all resets every participant of the scope to Unlocked with no
owner and the mutex free, while every non-participant is untouched both by
lock_all and by unlock_all. -/
theorem C8_release_exactly :
    (∀ v, access_proxy_destruct false v = v) ∧
    (∀ v, access_proxy_destruct true v = { v with lockState := .Unlocked, mtxHeld := false }) ∧
    (∀ σ parts p, p ∈ parts → unlock_all σ parts p = ⟨.Unlocked, none, false⟩) ∧
    (∀ σ parts q, q ∉ parts → unlock_all σ parts q = σ q) ∧
    (∀ t parts σ σ' plan, lock_all t parts σ = .ok σ' plan →
      ∀ q, q ∉ parts → σ' q = σ q) := by
  refine ⟨fun v => rfl, fun v => rfl,
    fun σ parts p => unlock_mem parts σ p,
    fun σ parts q => unlock_frame parts σ q, ?_⟩
  intro t parts σ σ' plan h q hq
  obtain ⟨σc, raw, heq, hplan, hσ'⟩ := lock_all_ok_elim t parts σ σ' plan h
  have hqraw : q ∉ raw := by
    intro hr
    rcases claimPhase_raw_sub t parts σ [] [] σc raw [] heq q hr with h1 | h2
    · cases h1
    · exact hq h2
  have hqplan : q ∉ plan := by
    intro hp
    exact hqraw ((List.perm_insertionSort (· ≤ ·) raw).mem_iff.mp (hplan ▸ hp))
  rw [hσ', finalize_frame t plan σc q hqplan]
  exact claimPhase_unchanged t parts σ [] [] σc raw [] heq q hqraw

/-- Witness for C8 at concrete inputs. -/
theorem C8_witness :
    access_proxy_destruct false ⟨.Scope, some 1, true⟩ = ⟨.Scope, some 1, true⟩ ∧
    unlock_all σ₀ [3, 4] 3 = ⟨.Unlocked, none, false⟩ ∧
    unlock_all σ₀ [3, 4] 7 = σ₀ 7 ∧
    σ6f 99 = σ₀ 99 :=
  ⟨C8_release_exactly.1 ⟨.Scope, some 1, true⟩,
   C8_release_exactly.2.2.1 σ₀ [3, 4] 3 (by decide),
   C8_release_exactly.2.2.2.1 σ₀ [3, 4] 7 (by decide),
   C8_release_exactly.2.2.2.2 1 [20, 10] σ₀ σ6f [10, 20] rfl 99 (by decide)⟩

/-- C9 counterexample: scope construction is a public operation and can
complete by throwing, yet does not preserve the invariant that lock_state is
Unlocked exactly when the mutex is not held: starting from σC, in which every
participating value satisfies the invariant, the construction over addresses
0, 1 on thread 1 throws and leaves address 0 with lock_state Scope while its
mutex is not held. -/
theorem C9_counterexample :
    InvSV (σC 0) ∧ InvSV (σC 1) ∧
    lock_all 1 [0, 1] σC = .reentrant σC1 ∧ ¬ InvSV (σC1 0) :=
  ⟨by decide, by decide, rfl, by decide⟩

/-- C9 amended: every public operation that completes normally preserves the
invariant that lock_state is Unlocked exactly when the mutex is not held:
access_proxy construction (in each completed outcome), access_proxy
destruction, a successful lock_all together with its matching unlock_all, the
comparison operators, assignment-through (assign_whole) and conversion-out
(read_whole).  Moreover the holder attribution holds for completing
operations: an acquiring access_proxy puts the value into the Operator state
with the mutex taken into that handle's unique_lock, and after a completed
scope construction every participant is in the Scope state with the mutex
held and locker_thread_id stamped by the owning scope's thread.  Only a
scope construction that throws breaks the invariant. -/
theorem C9_amended :
    (∀ t v, InvSV v → InvSV (ctorState (access_proxy_construct t v))) ∧
    (∀ own v, InvSV v → InvSV (access_proxy_destruct own v)) ∧
    (∀ t parts σ σ' plan, (∀ n, InvSV (σ n)) → lock_all t parts σ = .ok σ' plan →
      (∀ n, InvSV (σ' n)) ∧ (∀ n, InvSV (unlock_all σ' parts n))) ∧
    (∀ t a b σ π o σ₁, (∀ n, InvSV (σ n)) → sv_compare t a b σ π = some (o, σ₁) →
      ∀ n, InvSV (σ₁ n)) ∧
    (∀ t a b σ π r σ₂, (∀ n, InvSV (σ n)) → sv_eq t a b σ π = some (r, σ₂) →
      ∀ n, InvSV (σ₂ n)) ∧
    (∀ t a σ π x σ₁ π₁, (∀ n, InvSV (σ n)) → assign_whole t a σ π x = some (σ₁, π₁) →
      ∀ n, InvSV (σ₁ n)) ∧
    (∀ t a σ π r σ₁, (∀ n, InvSV (σ n)) → read_whole t a σ π = some (r, σ₁) →
      ∀ n, InvSV (σ₁ n)) ∧
    (∀ t v, v.lockState = .Unlocked →
      access_proxy_construct t v = .acquired { v with lockState := .Operator, mtxHeld := true }) ∧
    (∀ t parts σ σ' plan, lock_all t parts σ = .ok σ' plan →
      ∀ p ∈ parts, (σ' p).lockState = .Scope ∧ (σ' p).mtxHeld = true ∧
        (σ' p).locker = some t) := by
  refine ⟨?_, ?_, ?_, ?_, ?_, ?_, ?_, ?_, ?_⟩
  · intro t v hv
    unfold access_proxy_construct
    split_ifs with h1 h2
    · simp [ctorState, InvSV]
    · simpa [ctorState] using hv
    · simpa [ctorState] using hv
  · intro own v hv
    unfold access_proxy_destruct
    split_ifs with h1
    · simp [InvSV]
    · exact hv
  · intro t parts σ σ' plan hσ h
    have h' := inv_lock_all_ok t parts σ σ' plan hσ h
    exact ⟨h', inv_unlock_all σ' parts h'⟩
  · intro t a b σ π o σ₁ hσ h
    unfold sv_compare at h
    split at h
    · rename_i σf plan heq
      simp only [Option.some.injEq, Prod.mk.injEq] at h
      rw [← h.2]
      exact inv_unlock_all σf [a, b] (inv_lock_all_ok t [a, b] σ σf plan hσ heq)
    · exact absurd h (by simp)
  · intro t a b σ π r σ₂ hσ h
    unfold sv_eq at h
    split at h
    · rename_i σf plan heq
      simp only [Option.some.injEq, Prod.mk.injEq] at h
      rw [← h.2]
      exact inv_unlock_all σf [a, b] (inv_lock_all_ok t [a, b] σ σf plan hσ heq)
    · exact absurd h (by simp)
  · intro t a σ π x σ₁ π₁ hσ h
    exact inv_assign_whole t a σ π x σ₁ π₁ hσ h
  · intro t a σ π r σ₁ hσ h
    exact inv_read_whole t a σ π r σ₁ hσ h
  · intro t v h
    simp [access_proxy_construct, h]
  · intro t parts σ σ' plan h
    exact lock_all_ok_holds t parts σ σ' plan h

/-- Witness for the amended C9 at concrete inputs: invariant preservation by
a fresh acquisition, an owning destruction, a completed scope, an
assignment-through and a conversion-out, plus the holder-attribution facts at
a fresh value and at a completed scope's participant. -/
theorem C9_witness :
    InvSV (ctorState (access_proxy_construct 1 ⟨.Unlocked, none, false⟩)) ∧
    InvSV (access_proxy_destruct true ⟨.Operator, none, true⟩) ∧
    InvSV (σ6f 10) ∧
    InvSV (σW 0) ∧
    InvSV (σW 1) ∧
    access_proxy_construct 1 ⟨.Unlocked, some 2, false⟩ = .acquired ⟨.Operator, some 2, true⟩ ∧
    (σ6f 20).lockState = .Scope ∧ (σ6f 20).mtxHeld = true ∧ (σ6f 20).locker = some 1 :=
  ⟨C9_amended.1 1 ⟨.Unlocked, none, false⟩ (by decide),
   C9_amended.2.1 true ⟨.Operator, none, true⟩ (by decide),
   (C9_amended.2.2.1 1 [20, 10] σ₀ σ6f [10, 20] (fun n => (by simp [σ₀, InvSV] : InvSV (σ₀ n))) rfl).1 10,
   C9_amended.2.2.2.2.2.1 1 0 σ₀ π01 7 σW πW (fun n => (by simp [σ₀, InvSV] : InvSV (σ₀ n))) rfl 0,
   C9_amended.2.2.2.2.2.2.1 1 0 σ₀ π01 (π01 0) σW (fun n => (by simp [σ₀, InvSV] : InvSV (σ₀ n))) rfl 1,
   C9_amended.2.2.2.2.2.2.2.1 1 ⟨.Unlocked, some 2, false⟩ rfl,
   C9_amended.2.2.2.2.2.2.2.2 1 [20, 10] σ₀ σ6f [10, 20] rfl 20 (by decide)⟩

/-- C10 (confirmed): constructing or destroying an access_proxy leaves
locker_thread_id unchanged in every outcome; the field is written only by the
scope finalize step, which stamps the constructing thread, and by scope
destruction (unlock_all), which resets it to the null thread identity. -/
theorem C10_locker_frame :
    (∀ t v, (ctorState (access_proxy_construct t v)).locker = v.locker) ∧
    (∀ own v, (access_proxy_destruct own v).locker = v.locker) ∧
    (∀ t σ plan q, q ∈ plan → (finalize_plan t σ plan q).locker = some t) ∧
    (∀ σ parts q, q ∈ parts → (unlock_all σ parts q).locker = none) := by
  refine ⟨?_, ?_, ?_, ?_⟩
  · intro t v
    unfold access_proxy_construct
    split_ifs <;> simp [ctorState]
  · intro own v
    unfold access_proxy_destruct
    split_ifs <;> rfl
  · intro t σ plan q hq
    exact (finalize_mem t plan σ q hq).2
  · intro σ parts q hq
    rw [unlock_mem parts σ q hq]

/-- Witness for C10 at concrete inputs. -/
theorem C10_witness :
    (ctorState (access_proxy_construct 1 ⟨.Unlocked, some 2, false⟩)).locker =
      (⟨.Unlocked, some 2, false⟩ : SV).locker ∧
    (finalize_plan 1 σ6c [10, 20] 10).locker = some 1 ∧
    (unlock_all σ₀ [3] 3).locker = none :=
  ⟨C10_locker_frame.1 1 ⟨.Unlocked, some 2, false⟩,
   C10_locker_frame.2.2.1 1 σ6c [10, 20] 10 (by decide),
   C10_locker_frame.2.2.2 σ₀ [3] 3 (by decide)⟩

end SyncVal
